import Mathlib

/-!
Shallow embedding of the morphological analysis core of The-Living-Treaty
repository (files `lnu_bridge.py` and `translator.py`).

Python strings are modelled as `List Char` (`Word`); Python `str.endswith`
becomes the decidable proposition `l₁ <:+ l₂`, substring containment `in`
becomes `l₁ <:+: l₂`, and slicing `s[:-n]` becomes `List.take (length - n)`.
Stateful loops are rendered as fuelled recursion; for the fixed morpheme
tables every registered suffix is non-empty, so a fuel of the word length
bounds the number of peeling iterations.
-/

/-- Python strings, modelled as lists of characters. -/
abbrev Word := List Char

/-- The ASCII apostrophe character, used heavily in Mi'kmaw orthography. -/
def apos : Char := Char.ofNat 39

/-- Models membership in Python's whitespace set for `str.strip` / `str.split`
(space, tab, newline, carriage return, vertical tab, form feed). -/
def pySpace (c : Char) : Bool :=
  c == Char.ofNat 32 || c == Char.ofNat 9 || c == Char.ofNat 10 ||
  c == Char.ofNat 13 || c == Char.ofNat 11 || c == Char.ofNat 12

/-- Models Python `str.strip()`: drop whitespace from both ends. -/
def pyStrip (w : Word) : Word :=
  (((w.dropWhile pySpace).reverse).dropWhile pySpace).reverse

/-- Models Python `str.lower()` on the ASCII range used by the lexicon data. -/
def pyLower (w : Word) : Word := w.map Char.toLower

namespace LnuBridge

/-- `lnu_bridge.Morpheme`: written form, gloss, type ("root"/"suffix"/...),
and free-text notes (default empty). -/
structure Morpheme where
  form : Word
  gloss : Word
  type : Word
  notes : Word := []
deriving DecidableEq, Repr

/-- `lnu_bridge.MORPHEMES`: the seed morpheme table, in source order. -/
def MORPHEMES : List Morpheme := [
  ⟨"tekek".data, "cold (it is cold)".data, "root".data,
    "SFO; often pronounced with 'g' quality".data⟩,
  ⟨"wikuom".data, "house, dwelling, storage place".data, "root".data, []⟩,
  ⟨"aqan".data, "motion of arm/elbow, waving".data, "suffix".data,
    "used in weenieraqn joke".data⟩,
  ⟨"ketlami".data, "care, concern, love-like care".data, "root".data, []⟩,
  ⟨"welo't".data, "good, well, in good state".data, "root".data, []⟩,
  ⟨"epsi".data, "I am warm / passionate".data, "root".data,
    "Pacifique/Prosper".data⟩,
  ⟨"ul".data, "to make, to cause".data, "suffix".data,
    "device/action builder".data⟩,
  ⟨"qan".data, "device / instrument / 'thing that does it'".data,
    "suffix".data, []⟩,
  ⟨"si".data, "I am (stative in some forms)".data, "suffix".data, []⟩,
  ⟨"tasi".data, "in state/condition of".data, "suffix".data, []⟩]

/-- Lookup in `lnu_bridge.MORPHEME_INDEX`, the dict comprehension mapping
each table morpheme's form to the morpheme.  A Python dict comprehension
keeps the last entry for a duplicated key, hence the search over the
reversed table. -/
def MORPHEME_INDEX_get (r : Word) : Option Morpheme :=
  MORPHEMES.reverse.find? (fun m => m.form == r)

/-- Stable insertion of a morpheme into a length-descending list: the new
element goes after all elements of equal form length, matching Python's
stable `sorted(..., key=len, reverse=True)`. -/
def insertDesc (m : Morpheme) : List Morpheme → List Morpheme
  | [] => [m]
  | x :: xs =>
    if x.form.length < m.form.length then m :: x :: xs
    else x :: insertDesc m xs

/-- Stable sort by descending form length (ties keep original order). -/
def sortDesc (l : List Morpheme) : List Morpheme :=
  l.foldl (fun acc m => insertDesc m acc) []

/-- The candidate suffix list of `analyze_morphemes`: table entries with
type "suffix", sorted by descending form length, ties in table order. -/
def suffixCandidates : List Morpheme :=
  sortDesc (MORPHEMES.filter (fun m => m.type == "suffix".data))

/-- One scan of the candidate suffix list: the first suffix that the residual
ends with while being different from the whole residual
(`remaining.endswith(suf.form) and remaining != suf.form`). -/
def findSuffix (r : Word) : Option Morpheme :=
  suffixCandidates.find? (fun m => decide (m.form <:+ r) && decide (r ≠ m.form))

/-- Models Python `remaining[:-len(suf)]` for a non-empty suffix. -/
def stripSuffix (r : Word) (s : Word) : Word :=
  r.take (r.length - s.length)

/-- The `while changed` suffix-peeling loop of `analyze_morphemes`, as fuelled
recursion: repeatedly strip the first matching candidate suffix, collecting
the stripped suffixes in word order (each newly peeled suffix lies to the
left of the previously peeled ones).  Every candidate suffix has length at
least two, so `w.length` fuel is never exhausted. -/
def peelGo : Nat → Word → List Morpheme × Word
  | 0, r => ([], r)
  | fuel + 1, r =>
    match findSuffix r with
    | none => ([], r)
    | some suf =>
      let rest := peelGo fuel (stripSuffix r suf.form)
      (rest.1 ++ [suf], rest.2)

/-- The suffix morphemes peeled from a word, in word order. -/
def peelSuffixes (w : Word) : List Morpheme := (peelGo w.length w).1

/-- The residual left after suffix peeling stops. -/
def peelResidual (w : Word) : Word := (peelGo w.length w).2

/-- The synthetic placeholder for a residual not found in the table. -/
def unknownRoot (r : Word) : Morpheme :=
  ⟨r, "UNKNOWN-ROOT".data, "root".data, "not yet in database".data⟩

/-- `lnu_bridge.analyze_morphemes` (the effective, second definition): peel
known suffixes, then resolve the residual against the morpheme index, falling
back to a synthetic unknown root when the residual is non-empty. -/
def analyze_morphemes (w : Word) : List Morpheme :=
  let p := peelGo w.length w
  match MORPHEME_INDEX_get p.2 with
  | some m => m :: p.1
  | none => if p.2 = [] then p.1 else unknownRoot p.2 :: p.1

/-- Concatenation of the written forms of a morpheme list, in order. -/
def concatForms : List Morpheme → Word
  | [] => []
  | m :: l => m.form ++ concatForms l

end LnuBridge

namespace Translator

/-- `translator.Morpheme`: surface form, gloss, role, optional notes. -/
structure Morpheme where
  surface : Word
  gloss : Word
  role : Word
  notes : Option Word := none
deriving DecidableEq, Repr

/-- `translator.WordEntry`: one curated lexical entry. -/
structure WordEntry where
  headword : Word
  english : Word
  part_of_speech : Word
  animacy : Option Word
  morphemes : List Morpheme
  register : Option Word := none
  worldview_tags : List Word := []
  examples : List Word := []
deriving DecidableEq, Repr

/-- `translator.AnalysisResult`: the per-word analysis envelope. -/
structure AnalysisResult where
  word : Word
  entry : Option WordEntry
  guessed_morphemes : List Morpheme
  animacy_guess : Option Word
  worldview_notes : List Word
deriving DecidableEq, Repr

/-- `translator.GenerationRequest`. -/
structure GenerationRequest where
  concept : Word
  purpose : Word
  domain_tags : List Word
deriving DecidableEq, Repr

/-- `translator.GenerationCandidate`. -/
structure GenerationCandidate where
  word : Word
  breakdown : List Morpheme
  explanation : Word
  caution : Word
deriving DecidableEq, Repr

/-- `translator.LEXICON_CORE` as populated by `_init_lexicon`, as an
association list in dict insertion order. -/
def LEXICON_CORE : List (Word × WordEntry) := [
  ("kesalul".data,
   { headword := "kesalul".data, english := "I love you".data,
     part_of_speech := "VTA-1sg>2".data, animacy := some ("animate".data),
     morphemes := [
       ⟨"ke-".data, "1st person acting (I)".data, "prefix".data, none⟩,
       ⟨"sal".data, "love / precious".data, "root".data, none⟩,
       ⟨"-ul".data, "1→2 object (you)".data, "final".data, none⟩],
     worldview_tags := ["kinship".data, "emotion".data],
     examples := ["Kesalul nikmaq. – I love you, my relations.".data] }),
  ("kesa'lul".data,
   { headword := "kesa'lul".data, english := "I hurt you".data,
     part_of_speech := "VTA-1sg>2".data, animacy := some ("animate".data),
     morphemes := [
       ⟨"ke-".data, "1st person acting (I)".data, "prefix".data, none⟩,
       ⟨"sa'".data, "hurt / pain".data, "root".data, none⟩,
       ⟨"-ul".data, "1→2 object (you)".data, "final".data, none⟩],
     worldview_tags := ["emotion".data, "harm".data] }),
  ("ke'sa'lul".data,
   { headword := "ke'sa'lul".data,
     english := "I place you into the fire (as offering/prayer)".data,
     part_of_speech := "VTA-1sg>2".data, animacy := some ("animate".data),
     morphemes := [
       ⟨"ke'-".data, "into / into the fire".data, "preverb".data, none⟩,
       ⟨"sa'".data, "put / place".data, "root".data, none⟩,
       ⟨"-lul".data, "1→2 object".data, "final".data, none⟩],
     worldview_tags := ["ceremony".data, "offering".data, "fire".data] }),
  ("tekek".data,
   { headword := "tekek".data, english := "it is cold".data,
     part_of_speech := "VII".data, animacy := some ("inanimate".data),
     morphemes := [⟨"tekek".data, "cold (inanimate state)".data, "root".data, none⟩],
     worldview_tags := ["weather".data, "state".data] }),
  ("nme'jik".data,
   { headword := "nme'jik".data, english := "fishes".data,
     part_of_speech := "NA-pl".data, animacy := some ("animate".data),
     morphemes := [
       ⟨"nme'".data, "fish".data, "root".data, none⟩,
       ⟨"-jik".data, "animate plural".data, "suffix".data, none⟩],
     worldview_tags := ["animals".data, "water".data] }),
  ("msit no'kmaq".data,
   { headword := "msit no'kmaq".data, english := "all my relations".data,
     part_of_speech := "expression".data, animacy := none,
     morphemes := [
       ⟨"msit".data, "all".data, "quantifier".data, none⟩,
       ⟨"no'kmaq".data, "my relations / all my kin".data, "noun".data, none⟩],
     register := some ("ceremonial".data),
     worldview_tags := ["msit_nokmaq".data, "philosophy".data, "relation".data] })]

/-- `translator.ANIMACY_HINTS`, in dict insertion order. -/
def ANIMACY_HINTS : List (Word × Word) := [
  ("nme'".data, "animate".data),
  ("kataq".data, "animate".data),
  ("waisik".data, "animate".data),
  ("weskaq".data, "inanimate".data)]

/-- `translator.WORLDVIEW_HINTS`, in dict insertion order. -/
def WORLDVIEW_HINTS : List (Word × Word) := [
  ("msit".data, "Msit No'kmaq – all is related.".data),
  ("no'kmaq".data, "Relational kinship, not just biological family.".data),
  ("nipugt".data, "In the woods / territory context.".data),
  ("samqwan".data, "Water context – river, lake, ocean.".data),
  ("e's".data, "Process / becoming; states often verbs, not nouns.".data)]

/-- `translator.guess_animacy`: first substring hint wins; otherwise the
suffix fallbacks ("jik" → animate, "l"/"k" → no answer, else no answer). -/
def guess_animacy (w : Word) : Option Word :=
  match ANIMACY_HINTS.find? (fun p => decide (p.1 <:+: pyLower w)) with
  | some p => some p.2
  | none =>
    if "jik".data <:+ pyLower w then some ("animate".data)
    else if "l".data <:+ pyLower w ∨ "k".data <:+ pyLower w then none
    else none

/-- `translator.collect_worldview_notes`: note of every hint fragment that
occurs as a substring of the lowercased word, in hint-table order. -/
def collect_worldview_notes (w : Word) : List Word :=
  WORLDVIEW_HINTS.filterMap
    (fun p => if p.1 <:+: pyLower w then some p.2 else none)

/-- `LnuTranslator.lookup`: strip the query, try an exact key match, then a
case-insensitive scan over the lexicon in insertion order. -/
def lookup (lex : List (Word × WordEntry)) (w : Word) : Option WordEntry :=
  let key := pyStrip w
  match lex.find? (fun p => p.1 == key) with
  | some p => some p.2
  | none =>
    match lex.find? (fun p => pyLower p.1 == pyLower key) with
    | some p => some p.2
    | none => none

/-- Models Python `", ".join(tags)`. -/
def joinComma : List Word → Word
  | [] => []
  | [x] => x
  | x :: y :: xs => x ++ ", ".data ++ joinComma (y :: xs)

/-- Split a word on a character predicate, keeping empty chunks between
consecutive separators (the chunk structure of Python `str.split(sep)`). -/
def splitOnP (p : Char → Bool) : Word → List Word
  | [] => [[]]
  | c :: cs =>
    if p c then [] :: splitOnP p cs
    else
      match splitOnP p cs with
      | [] => [[c]]
      | h :: t => (c :: h) :: t

/-- Models Python `word.split("'")`: pieces between apostrophes, empties kept. -/
def splitApos (w : Word) : List Word :=
  splitOnP (fun c => c == apos) w

/-- The morpheme guesses of `analyze_word`'s pattern heuristics ("-jik"
plural split, else apostrophe split into non-empty pieces, else nothing). -/
def patternMorphs (w : Word) : List Morpheme :=
  if "jik".data <:+ w then
    [⟨w.take (w.length - 3), "possible animate root".data, "root".data, none⟩,
     ⟨"-jik".data, "animate plural".data, "suffix".data, none⟩]
  else if apos ∈ w then
    (splitApos w).filterMap
      (fun p => if p = [] then none
                else some ⟨p, "possible morpheme".data, "unknown".data, none⟩)
  else []

/-- The note appended by each pattern-heuristic branch of `analyze_word`. -/
def patternNotes (w : Word) : List Word :=
  if "jik".data <:+ w then
    ["-jik often marks animate plural (people, animals, living beings).".data]
  else if apos ∈ w then
    ["Apostrophes often mark long vowels or morpheme boundaries.".data]
  else []

/-- The advisory note added when no pattern heuristic produced a guess. -/
def advisoryNote : Word :=
  "No lexicon entry yet. This is a good candidate to confirm with fluent speakers.".data

/-- The fallback morpheme used when no pattern heuristic produced a guess. -/
def unknownMorph (w : Word) : Morpheme :=
  ⟨w, "unknown – add to lexicon with elders".data, "unknown".data, none⟩

/-- Final guessed-morpheme list of `analyze_word`'s miss branch. -/
def missGuessed (w : Word) : List Morpheme :=
  if patternMorphs w = [] then [unknownMorph w] else patternMorphs w

/-- The interpolated note "Animacy guess: ..." appended by `analyze_word`
when the animacy guess is not `None`. -/
def animacyNotes (w : Word) : List Word :=
  match guess_animacy w with
  | some a => ["Animacy guess: ".data ++ a ++ ".".data]
  | none => []

/-- Final worldview-note list of `analyze_word`'s miss branch, in append
order: substring hints, pattern note, advisory note, animacy-guess note. -/
def missNotes (w : Word) : List Word :=
  collect_worldview_notes w ++ patternNotes w ++
  (if patternMorphs w = [] then [advisoryNote] else []) ++ animacyNotes w

/-- `LnuTranslator.analyze_word`: on a lexicon hit, return the stored entry
with no guessed morphemes and the headword's worldview notes (plus a
synthesized tag note); on a miss, return the heuristic guess. -/
def analyze_word (lex : List (Word × WordEntry)) (w : Word) : AnalysisResult :=
  match lookup lex w with
  | some entry =>
    { word := w, entry := some entry, guessed_morphemes := [],
      animacy_guess := entry.animacy,
      worldview_notes :=
        collect_worldview_notes entry.headword ++
        (if entry.worldview_tags = [] then []
         else ["Worldview tags: ".data ++ joinComma entry.worldview_tags]) }
  | none =>
    { word := w, entry := none, guessed_morphemes := missGuessed w,
      animacy_guess := guess_animacy w, worldview_notes := missNotes w }

/-- The tokenizer of `analyze_sentence`:
`sentence.replace(",", " ").split()` with empty tokens dropped. -/
def tokenize (s : Word) : List Word :=
  (splitOnP pySpace (s.map (fun c => if c == Char.ofNat 44 then Char.ofNat 32 else c))).filter
    (fun t => t ≠ [])

/-- The return shape of `LnuTranslator.analyze_sentence`. -/
structure SentenceAnalysis where
  sentence : Word
  tokens : List Word
  analyses : List AnalysisResult
deriving DecidableEq, Repr

/-- `LnuTranslator.analyze_sentence`: tokenize, then analyze each token
independently in input order. -/
def analyze_sentence (lex : List (Word × WordEntry)) (s : Word) : SentenceAnalysis :=
  { sentence := s, tokens := tokenize s,
    analyses := (tokenize s).map (analyze_word lex) }

/-- Models Python `str.capitalize()` for ASCII data. -/
def pyCapitalize : Word → Word
  | [] => []
  | c :: cs => c.toUpper :: cs.map Char.toLower

/-- The candidate emitted by the refrigerator template of
`generate_modern_term`. -/
def fridgeCandidate : GenerationCandidate :=
  { word := "Mesentaqtekekim".data,
    breakdown := [
      ⟨"mesen-".data, "to keep / maintain".data, "preverb".data, none⟩,
      ⟨"taq-".data, "inside / container / dwelling".data, "root-ish".data, none⟩,
      ⟨"tekek".data, "cold (inanimate state)".data, "root".data, none⟩,
      ⟨"-im".data, "instrument / thing that does this".data, "suffix".data, none⟩],
    explanation :=
      ("Built from mesen- (to keep/maintain) + taq (inside) + tekek (cold) " ++
       "+ -im (instrument). Rough sense: 'the thing that keeps the inside cold'.").data,
    caution :=
      ("Prototype only. Confirm phonology, stress and cultural fit with fluent " ++
       "Mi'kmaw speakers and elders before adopting. Adjust spelling to local dialect.").data }

/-- The generic fallback candidate always appended by
`generate_modern_term` (`base_root.capitalize() + "ik"`). -/
def genericCandidate : GenerationCandidate :=
  { word := pyCapitalize ("apoqnmatultim".data) ++ "ik".data,
    breakdown := [
      ⟨"apoqnmatultim".data, "to help / support (placeholder root)".data, "root".data, none⟩,
      ⟨"-ik".data, "thing which does this".data, "suffix".data, none⟩],
    explanation :=
      ("Generic helper pattern: root meaning 'to help/support' + -ik (instrument). " ++
       "Use this only as a brainstorming starting point.").data,
    caution :=
      ("Generic pattern. Replace the root with a better verb that reflects the purpose " ++
       "once you consult speakers (e.g., a more specific verb for how the object acts).").data }

/-- `LnuTranslator.generate_modern_term`: the refrigerator template when its
predicate matches, then always the generic fallback candidate. -/
def generate_modern_term (req : GenerationRequest) : List GenerationCandidate :=
  (if "refrigerator".data <:+: pyLower req.concept ∨
      ("cold".data <:+: pyLower req.purpose ∧ "food".data <:+: pyLower req.purpose)
   then [fridgeCandidate] else []) ++ [genericCandidate]

end Translator



namespace LnuBridge

theorem concatForms_append (l₁ l₂ : List Morpheme) :
    concatForms (l₁ ++ l₂) = concatForms l₁ ++ concatForms l₂ := by
  induction l₁ with
  | nil => simp [concatForms]
  | cons m l ih => simp [concatForms, ih]

theorem findSuffix_spec {r : Word} {suf : Morpheme}
    (h : findSuffix r = some suf) :
    suf ∈ suffixCandidates ∧ suf.form <:+ r ∧ r ≠ suf.form := by
  have hmem := List.mem_of_find?_eq_some h
  have hp := List.find?_some h
  simp only [Bool.and_eq_true, decide_eq_true_eq] at hp
  exact ⟨hmem, hp.1, hp.2⟩

theorem stripSuffix_append {r s : Word} (h : s <:+ r) :
    stripSuffix r s ++ s = r := by
  obtain ⟨t, rfl⟩ := h
  have h1 : (t ++ s).length - s.length = t.length := by
    simp [List.length_append]
  rw [stripSuffix, h1, List.take_append_of_le_length (Nat.le_refl _),
    List.take_length]

theorem peelGo_concat : ∀ (fuel : Nat) (r : Word),
    (peelGo fuel r).2 ++ concatForms (peelGo fuel r).1 = r
  | 0, _ => by simp [peelGo, concatForms]
  | fuel + 1, r => by
    unfold peelGo
    cases hf : findSuffix r with
    | none => simp [concatForms]
    | some suf =>
      have hs := findSuffix_spec hf
      have ih := peelGo_concat fuel (stripSuffix r suf.form)
      simp only [concatForms_append, concatForms, List.append_nil]
      rw [← List.append_assoc, ih]
      exact stripSuffix_append hs.2.1

theorem peelGo_residual_ne : ∀ (fuel : Nat) (r : Word), r ≠ [] →
    (peelGo fuel r).2 ≠ []
  | 0, _, h => h
  | fuel + 1, r, h => by
    unfold peelGo
    cases hf : findSuffix r with
    | none => simpa using h
    | some suf =>
      have hs := findSuffix_spec hf
      apply peelGo_residual_ne fuel
      intro hnil
      have hc := stripSuffix_append hs.2.1
      rw [hnil, List.nil_append] at hc
      exact hs.2.2 hc.symm

theorem MORPHEME_INDEX_get_some {r : Word} {m : Morpheme}
    (h : MORPHEME_INDEX_get r = some m) : m ∈ MORPHEMES ∧ m.form = r := by
  have hmem := List.mem_of_find?_eq_some h
  have hp := List.find?_some h
  rw [List.mem_reverse] at hmem
  simp only [beq_iff_eq] at hp
  exact ⟨hmem, hp⟩

theorem MORPHEME_INDEX_get_none_iff {r : Word} :
    MORPHEME_INDEX_get r = none ↔ ∀ m ∈ MORPHEMES, m.form ≠ r := by
  rw [MORPHEME_INDEX_get, List.find?_eq_none]
  constructor
  · intro h m hm
    have := h m (List.mem_reverse.mpr hm)
    simpa using this
  · intro h m hm
    have := h m (List.mem_reverse.mp hm)
    simpa using this

/-- Unfolding equation for `analyze_morphemes` in terms of the peeled
suffixes and the residual. -/
theorem analyze_morphemes_eq (w : Word) :
    analyze_morphemes w =
      match MORPHEME_INDEX_get (peelResidual w) with
      | some m => m :: peelSuffixes w
      | none =>
        if peelResidual w = [] then peelSuffixes w
        else unknownRoot (peelResidual w) :: peelSuffixes w := rfl

/-- On a list sorted by descending form length, `find?` returns an element
whose form length is maximal among all elements satisfying the predicate. -/
theorem find?_length_max {p : Morpheme → Bool} :
    ∀ {l : List Morpheme},
    l.Sorted (fun a b => b.form.length ≤ a.form.length) →
    ∀ {suf : Morpheme}, l.find? p = some suf →
    ∀ m ∈ l, p m = true → m.form.length ≤ suf.form.length := by
  intro l hl
  induction l with
  | nil => intro suf h; simp [List.find?] at h
  | cons x xs ih =>
    intro suf hfind m hm hpm
    rw [List.sorted_cons] at hl
    rw [List.find?_cons] at hfind
    cases hpx : p x with
    | true =>
      rw [hpx] at hfind
      injection hfind with hfx
      subst hfx
      rcases List.mem_cons.mp hm with rfl | hmxs
      · exact Nat.le_refl _
      · exact hl.1 m hmxs
    | false =>
      rw [hpx] at hfind
      rcases List.mem_cons.mp hm with rfl | hmxs
      · rw [hpm] at hpx; cases hpx
      · exact ih hl.2 hfind m hmxs hpm

end LnuBridge

/-- C2: the candidate suffixes are exactly the Morpheme Table entries with
suffix role, ordered by descending surface-form length with ties in original
table order; `findSuffix` always strips a matching suffix of maximal length;
and segmenting "welo'tasi" yields [root "welo'", suffix "tasi"]. -/
theorem suffix_peeling_longest_match_first :
    LnuBridge.suffixCandidates = [
      ⟨"aqan".data, "motion of arm/elbow, waving".data, "suffix".data,
        "used in weenieraqn joke".data⟩,
      ⟨"tasi".data, "in state/condition of".data, "suffix".data, []⟩,
      ⟨"qan".data, "device / instrument / 'thing that does it'".data,
        "suffix".data, []⟩,
      ⟨"ul".data, "to make, to cause".data, "suffix".data,
        "device/action builder".data⟩,
      ⟨"si".data, "I am (stative in some forms)".data, "suffix".data, []⟩] ∧
    LnuBridge.suffixCandidates.Sorted
      (fun a b => b.form.length ≤ a.form.length) ∧
    (∀ (r : Word) (suf : LnuBridge.Morpheme),
      LnuBridge.findSuffix r = some suf →
      ∀ m ∈ LnuBridge.suffixCandidates,
        (decide (m.form <:+ r) && decide (r ≠ m.form)) = true →
        m.form.length ≤ suf.form.length) ∧
    LnuBridge.analyze_morphemes ("welo'tasi".data) =
      [⟨"welo'".data, "UNKNOWN-ROOT".data, "root".data,
        "not yet in database".data⟩,
       ⟨"tasi".data, "in state/condition of".data, "suffix".data, []⟩] := by
  refine ⟨by decide, by decide, ?_, by decide⟩
  intro r suf h m hm hpm
  exact LnuBridge.find?_length_max (by decide) h m hm hpm

/-- Witness for the longest-match clause: in "welo'tasi" both "tasi" and
"si" match, and the peeled suffix "tasi" is at least as long as "si". -/
theorem suffix_peeling_longest_match_first_witness :
    (⟨"si".data, "I am (stative in some forms)".data, "suffix".data,
      []⟩ : LnuBridge.Morpheme).form.length ≤
    (⟨"tasi".data, "in state/condition of".data, "suffix".data,
      []⟩ : LnuBridge.Morpheme).form.length :=
  suffix_peeling_longest_match_first.2.2.1 ("welo'tasi".data) _ (by decide) _
    (by decide) (by decide)

/-- C5 (counterexample): the residual "si" matches no root-role surface form
in the Morpheme Table, yet segmentation prepends the stored suffix-role
morpheme "si" instead of the synthetic UNKNOWN-ROOT the claim requires. -/
theorem residual_known_suffix_not_unknown_root :
    LnuBridge.analyze_morphemes ("si".data) =
      [⟨"si".data, "I am (stative in some forms)".data, "suffix".data, []⟩] ∧
    ("si".data) ∉ (LnuBridge.MORPHEMES.filter
      (fun m => m.type == "root".data)).map LnuBridge.Morpheme.form ∧
    LnuBridge.analyze_morphemes ("si".data) ≠
      [LnuBridge.unknownRoot ("si".data)] := by decide

/-- C5 (amended): after peeling stops, a residual matching any Morpheme
Table surface form (regardless of role) is resolved to that table morpheme;
a non-empty residual matching no table form becomes the synthetic
UNKNOWN-ROOT morpheme; an empty residual contributes nothing. -/
theorem residual_resolution (w : Word) :
    ((∀ m ∈ LnuBridge.MORPHEMES, m.form ≠ LnuBridge.peelResidual w) →
      LnuBridge.peelResidual w ≠ [] →
      LnuBridge.analyze_morphemes w =
        LnuBridge.unknownRoot (LnuBridge.peelResidual w) ::
          LnuBridge.peelSuffixes w) ∧
    (∀ m, LnuBridge.MORPHEME_INDEX_get (LnuBridge.peelResidual w) = some m →
      m ∈ LnuBridge.MORPHEMES ∧ m.form = LnuBridge.peelResidual w ∧
      LnuBridge.analyze_morphemes w = m :: LnuBridge.peelSuffixes w) ∧
    (LnuBridge.peelResidual w = [] →
      LnuBridge.analyze_morphemes w = LnuBridge.peelSuffixes w) := by
  refine ⟨?_, ?_, ?_⟩
  · intro hno hne
    have hnone := LnuBridge.MORPHEME_INDEX_get_none_iff.mpr hno
    rw [LnuBridge.analyze_morphemes_eq, hnone]
    exact if_neg hne
  · intro m hget
    have hs := LnuBridge.MORPHEME_INDEX_get_some hget
    refine ⟨hs.1, hs.2, ?_⟩
    rw [LnuBridge.analyze_morphemes_eq, hget]
  · intro hnil
    have hnone : LnuBridge.MORPHEME_INDEX_get (LnuBridge.peelResidual w) =
        none := by rw [hnil]; decide
    rw [LnuBridge.analyze_morphemes_eq, hnone]
    exact if_pos hnil

/-- Witness: the residual of "wikuom" is the known root "wikuom", which is
prepended from the Morpheme Table. -/
theorem residual_resolution_witness :
    LnuBridge.analyze_morphemes ("wikuom".data) =
      (⟨"wikuom".data, "house, dwelling, storage place".data, "root".data,
        []⟩ : LnuBridge.Morpheme) :: LnuBridge.peelSuffixes ("wikuom".data) :=
  ((residual_resolution ("wikuom".data)).2.1 _ (by decide)).2.2

/-- C6 (counterexample): the input "aqan" is itself a registered suffix
form, yet a (different, shorter) suffix "qan" is still peeled from it, so
the whole word is not returned in the root position. -/
theorem word_equal_to_suffix_still_peeled :
    ("aqan".data) ∈ LnuBridge.suffixCandidates.map LnuBridge.Morpheme.form ∧
    LnuBridge.analyze_morphemes ("aqan".data) =
      [⟨"a".data, "UNKNOWN-ROOT".data, "root".data, "not yet in database".data⟩,
       ⟨"qan".data, "device / instrument / 'thing that does it'".data,
        "suffix".data, []⟩] ∧
    (LnuBridge.analyze_morphemes ("aqan".data)).length ≠ 1 := by decide

/-- C6 (amended): a peeling step never strips a suffix equal to the entire
current residual — the stripped suffix always differs from the residual and
leaves a non-empty remainder; in particular the word "si", equal to the
registered suffix "si", is returned whole as the single stored morpheme. -/
theorem no_whole_residual_peel :
    (∀ (r : Word) (suf : LnuBridge.Morpheme),
      LnuBridge.findSuffix r = some suf →
      suf.form ≠ r ∧ LnuBridge.stripSuffix r suf.form ≠ []) ∧
    LnuBridge.analyze_morphemes ("si".data) =
      [⟨"si".data, "I am (stative in some forms)".data, "suffix".data, []⟩] := by
  constructor
  · intro r suf h
    have hs := LnuBridge.findSuffix_spec h
    refine ⟨fun he => hs.2.2 he.symm, ?_⟩
    intro hnil
    have hc := LnuBridge.stripSuffix_append hs.2.1
    rw [hnil, List.nil_append] at hc
    exact hs.2.2 hc.symm
  · decide

/-- Witness: peeling "welo'tasi" strips "tasi", which differs from the whole
residual and leaves the non-empty remainder "welo'". -/
theorem no_whole_residual_peel_witness :
    (⟨"tasi".data, "in state/condition of".data, "suffix".data,
      []⟩ : LnuBridge.Morpheme).form ≠ ("welo'tasi".data) ∧
    LnuBridge.stripSuffix ("welo'tasi".data)
      (⟨"tasi".data, "in state/condition of".data, "suffix".data,
        []⟩ : LnuBridge.Morpheme).form ≠ [] :=
  no_whole_residual_peel.1 ("welo'tasi".data) _ (by decide)

/-- C7: concatenating the surface forms of the morphemes returned by
segmentation, in order, reconstructs the original input word exactly. -/
theorem segmentation_concat_reconstructs (w : Word) :
    LnuBridge.concatForms (LnuBridge.analyze_morphemes w) = w := by
  have hc : LnuBridge.peelResidual w ++
      LnuBridge.concatForms (LnuBridge.peelSuffixes w) = w :=
    LnuBridge.peelGo_concat w.length w
  rw [LnuBridge.analyze_morphemes_eq]
  cases hg : LnuBridge.MORPHEME_INDEX_get (LnuBridge.peelResidual w) with
  | some m =>
    have hm := LnuBridge.MORPHEME_INDEX_get_some hg
    simp only [LnuBridge.concatForms]
    rw [hm.2]
    exact hc
  | none =>
    by_cases hnil : LnuBridge.peelResidual w = []
    · rw [hnil, List.nil_append] at hc
      simp [hnil, hc]
    · simp only [if_neg hnil, LnuBridge.concatForms, LnuBridge.unknownRoot]
      exact hc

/-- C10: for every non-empty input word the residual after peeling is
non-empty, so segmentation returns a non-empty list headed by a root-position
morpheme that is either a known table morpheme or the synthetic
UNKNOWN-ROOT placeholder. -/
theorem segmentation_nonempty (w : Word) (h : w ≠ []) :
    LnuBridge.analyze_morphemes w ≠ [] ∧
    LnuBridge.peelResidual w ≠ [] ∧
    ∃ m ms, LnuBridge.analyze_morphemes w = m :: ms ∧
      ms = LnuBridge.peelSuffixes w ∧
      (m ∈ LnuBridge.MORPHEMES ∨
        m = LnuBridge.unknownRoot (LnuBridge.peelResidual w)) := by
  have hres : LnuBridge.peelResidual w ≠ [] :=
    LnuBridge.peelGo_residual_ne w.length w h
  have hkey : ∃ m ms, LnuBridge.analyze_morphemes w = m :: ms ∧
      ms = LnuBridge.peelSuffixes w ∧
      (m ∈ LnuBridge.MORPHEMES ∨
        m = LnuBridge.unknownRoot (LnuBridge.peelResidual w)) := by
    rw [LnuBridge.analyze_morphemes_eq]
    cases hg : LnuBridge.MORPHEME_INDEX_get (LnuBridge.peelResidual w) with
    | some m =>
      exact ⟨m, _, rfl, rfl, Or.inl (LnuBridge.MORPHEME_INDEX_get_some hg).1⟩
    | none =>
      rw [if_neg hres]
      exact ⟨_, _, rfl, rfl, Or.inr rfl⟩
  refine ⟨?_, hres, hkey⟩
  obtain ⟨m, ms, heq, -, -⟩ := hkey
  rw [heq]
  exact List.cons_ne_nil m ms

/-- Witness: "epsi" is non-empty and its segmentation is non-empty. -/
theorem segmentation_nonempty_witness :
    LnuBridge.analyze_morphemes ("epsi".data) ≠ [] :=
  (segmentation_nonempty ("epsi".data) (by decide)).1

namespace Translator

theorem missGuessed_ne_nil (w : Word) : missGuessed w ≠ [] := by
  unfold missGuessed
  by_cases h : patternMorphs w = []
  · rw [if_pos h]; exact List.cons_ne_nil _ _
  · rw [if_neg h]; exact h

/-- Unfolding equation for `lookup`. -/
theorem lookup_eq (lex : List (Word × WordEntry)) (w : Word) :
    lookup lex w =
      match lex.find? (fun p => p.1 == pyStrip w) with
      | some p => some p.2
      | none =>
        match lex.find? (fun p => pyLower p.1 == pyLower (pyStrip w)) with
        | some p => some p.2
        | none => none := rfl

theorem lookup_eq_none {lex : List (Word × WordEntry)} {w : Word}
    (h : ∀ p ∈ lex, pyLower p.1 ≠ pyLower (pyStrip w)) :
    lookup lex w = none := by
  have h1 : lex.find? (fun p => p.1 == pyStrip w) = none := by
    rw [List.find?_eq_none]
    intro p hp
    simp only [beq_iff_eq]
    intro he
    exact h p hp (by rw [he])
  have h2 : lex.find? (fun p => pyLower p.1 == pyLower (pyStrip w)) = none := by
    rw [List.find?_eq_none]
    intro p hp
    simp only [beq_iff_eq]
    exact h p hp
  rw [lookup_eq, h1, h2]

theorem lookup_hit {lex : List (Word × WordEntry)} {w : Word}
    (h : ∃ p, p ∈ lex ∧ pyLower p.1 = pyLower (pyStrip w)) :
    ∃ p, p ∈ lex ∧ pyLower p.1 = pyLower (pyStrip w) ∧
      lookup lex w = some p.2 := by
  cases h1 : lex.find? (fun p => p.1 == pyStrip w) with
  | some q =>
    have hq := List.find?_some h1
    simp only [beq_iff_eq] at hq
    exact ⟨q, List.mem_of_find?_eq_some h1, by rw [hq],
      by rw [lookup_eq, h1]⟩
  | none =>
    have hs : (lex.find? (fun p => pyLower p.1 == pyLower (pyStrip w))).isSome := by
      rw [List.find?_isSome]
      obtain ⟨p, hp, hl⟩ := h
      exact ⟨p, hp, by simp [hl]⟩
    cases h2 : lex.find? (fun p => pyLower p.1 == pyLower (pyStrip w)) with
    | none => rw [h2] at hs; simp at hs
    | some q =>
      have hq := List.find?_some h2
      simp only [beq_iff_eq] at hq
      exact ⟨q, List.mem_of_find?_eq_some h2, hq, by rw [lookup_eq, h1, h2]⟩

theorem analyze_word_of_lookup_some {lex : List (Word × WordEntry)} {w : Word}
    {e : WordEntry} (h : lookup lex w = some e) :
    (analyze_word lex w).entry = some e ∧
    (analyze_word lex w).guessed_morphemes = [] := by
  unfold analyze_word
  rw [h]
  exact ⟨rfl, rfl⟩

theorem analyze_word_of_lookup_none {lex : List (Word × WordEntry)} {w : Word}
    (h : lookup lex w = none) :
    analyze_word lex w =
      { word := w, entry := none, guessed_morphemes := missGuessed w,
        animacy_guess := guess_animacy w, worldview_notes := missNotes w } := by
  unfold analyze_word
  rw [h]

theorem toLower_space {c : Char} (h : pySpace c = true) : c.toLower = c := by
  simp only [pySpace, Bool.or_eq_true, beq_iff_eq] at h
  rcases h with ((((h | h) | h) | h) | h) | h <;> rw [h] <;> decide

theorem all_space_pyLower {w : Word} (h : ∀ c ∈ w, pySpace c = true) :
    ∀ c ∈ pyLower w, pySpace c = true := by
  intro c hc
  simp only [pyLower, List.mem_map] at hc
  obtain ⟨a, ha, rfl⟩ := hc
  rw [toLower_space (h a ha)]
  exact h a ha

theorem not_suffix_of_all_space {s l : Word} {c : Char} (hc : c ∈ s)
    (hcf : pySpace c = false) (h : ∀ a ∈ l, pySpace a = true) : ¬ s <:+ l := by
  intro hs
  have hmem := h c (hs.subset hc)
  simp [hmem] at hcf

theorem not_infix_of_all_space {s l : Word} {c : Char} (hc : c ∈ s)
    (hcf : pySpace c = false) (h : ∀ a ∈ l, pySpace a = true) : ¬ s <:+: l := by
  intro hs
  have hmem := h c (hs.subset hc)
  simp [hmem] at hcf

theorem pyStrip_space {w : Word} (h : ∀ c ∈ w, pySpace c = true) :
    pyStrip w = [] := by
  have hd : w.dropWhile pySpace = [] := by
    induction w with
    | nil => rfl
    | cons c cs ih =>
      rw [List.dropWhile_cons, if_pos (h c (List.mem_cons_self c cs))]
      exact ih (fun x hx => h x (List.mem_cons_of_mem c hx))
  rw [pyStrip, hd]
  rfl

theorem guess_animacy_space {w : Word} (h : ∀ c ∈ w, pySpace c = true) :
    guess_animacy w = none := by
  have hlow := all_space_pyLower h
  have hjik : ¬ ("jik".data <:+ pyLower w) :=
    not_suffix_of_all_space (by decide : 'k' ∈ "jik".data) (by decide) hlow
  unfold guess_animacy
  cases hf : ANIMACY_HINTS.find? (fun p => decide (p.1 <:+: pyLower w)) with
  | some p =>
    exfalso
    have hp := List.find?_some hf
    simp only [decide_eq_true_eq] at hp
    obtain ⟨c, hcm, hcf⟩ :=
      (by decide : ∀ q ∈ ANIMACY_HINTS, ∃ c ∈ q.1, pySpace c = false) p
        (List.mem_of_find?_eq_some hf)
    exact not_infix_of_all_space hcm hcf hlow hp
  | none =>
    show (if "jik".data <:+ pyLower w then some ("animate".data)
          else if "l".data <:+ pyLower w ∨ "k".data <:+ pyLower w then none
          else none) = none
    rw [if_neg hjik]
    split <;> rfl

theorem collect_space {w : Word} (h : ∀ c ∈ w, pySpace c = true) :
    collect_worldview_notes w = [] := by
  have hlow := all_space_pyLower h
  unfold collect_worldview_notes
  rw [List.filterMap_eq_nil_iff]
  intro p hp
  obtain ⟨c, hcm, hcf⟩ :=
    (by decide : ∀ q ∈ WORLDVIEW_HINTS, ∃ c ∈ q.1, pySpace c = false) p hp
  rw [if_neg (not_infix_of_all_space hcm hcf hlow)]

theorem collect_mem {w n : Word} (h : n ∈ collect_worldview_notes w) :
    n ∈ WORLDVIEW_HINTS.map Prod.snd := by
  unfold collect_worldview_notes at h
  rw [List.mem_filterMap] at h
  obtain ⟨p, hp, hpn⟩ := h
  by_cases hi : p.1 <:+: pyLower w
  · rw [if_pos hi] at hpn
    injection hpn with hpn
    exact hpn ▸ List.mem_map_of_mem Prod.snd hp
  · rw [if_neg hi] at hpn; cases hpn

theorem patternNotes_mem {w n : Word} (h : n ∈ patternNotes w) :
    n = ("-jik often marks animate plural (people, animals, living beings).".data) ∨
    n = ("Apostrophes often mark long vowels or morpheme boundaries.".data) := by
  unfold patternNotes at h
  by_cases hj : "jik".data <:+ w
  · rw [if_pos hj] at h
    exact Or.inl (List.mem_singleton.mp h)
  · rw [if_neg hj] at h
    by_cases ha : apos ∈ w
    · rw [if_pos ha] at h
      exact Or.inr (List.mem_singleton.mp h)
    · rw [if_neg ha] at h; cases h

theorem guess_animacy_values (w : Word) :
    guess_animacy w = none ∨ guess_animacy w = some ("animate".data) ∨
    guess_animacy w = some ("inanimate".data) := by
  unfold guess_animacy
  cases hf : ANIMACY_HINTS.find? (fun p => decide (p.1 <:+: pyLower w)) with
  | none =>
    by_cases hj : "jik".data <:+ pyLower w
    · right; left
      show (if "jik".data <:+ pyLower w then some ("animate".data)
            else if "l".data <:+ pyLower w ∨ "k".data <:+ pyLower w then none
            else none) = some ("animate".data)
      rw [if_pos hj]
    · left
      show (if "jik".data <:+ pyLower w then some ("animate".data)
            else if "l".data <:+ pyLower w ∨ "k".data <:+ pyLower w then none
            else none) = none
      rw [if_neg hj]
      split <;> rfl
  | some p =>
    rcases (by decide : ∀ q ∈ ANIMACY_HINTS,
        q.2 = ("animate".data) ∨ q.2 = ("inanimate".data)) p
        (List.mem_of_find?_eq_some hf) with hv | hv
    · right; left
      show some p.2 = some ("animate".data)
      rw [hv]
    · right; right
      show some p.2 = some ("inanimate".data)
      rw [hv]

theorem animacyNotes_values (w : Word) :
    animacyNotes w = [] ∨
    animacyNotes w = ["Animacy guess: animate.".data] ∨
    animacyNotes w = ["Animacy guess: inanimate.".data] := by
  unfold animacyNotes
  cases hv : guess_animacy w with
  | none => exact Or.inl rfl
  | some a =>
    rcases guess_animacy_values w with h | h | h <;> rw [hv] at h
    · cases h
    · injection h with h
      subst h
      right; left
      decide
    · injection h with h
      subst h
      right; right
      decide

theorem splitOnP_chars (p : Char → Bool) :
    ∀ (l t : Word), t ∈ splitOnP p l → ∀ c ∈ t, p c = false ∧ c ∈ l
  | [], t, ht, c, hc => by
    simp only [splitOnP, List.mem_singleton] at ht
    subst ht
    cases hc
  | a :: l, t, ht, c, hc => by
    simp only [splitOnP] at ht
    by_cases hpa : p a = true
    · rw [if_pos hpa] at ht
      rcases List.mem_cons.mp ht with rfl | ht2
      · cases hc
      · have hr := splitOnP_chars p l t ht2 c hc
        exact ⟨hr.1, List.mem_cons_of_mem a hr.2⟩
    · have hpa2 : p a = false := by revert hpa; cases p a <;> simp
      rw [if_neg hpa] at ht
      cases hr : splitOnP p l with
      | nil =>
        rw [hr] at ht
        rw [List.mem_singleton] at ht
        subst ht
        rw [List.mem_singleton] at hc
        subst hc
        exact ⟨hpa2, List.mem_cons_self _ _⟩
      | cons h tl =>
        rw [hr] at ht
        rcases List.mem_cons.mp ht with rfl | ht2
        · rcases List.mem_cons.mp hc with rfl | hc2
          · exact ⟨hpa2, List.mem_cons_self _ _⟩
          · have hm := splitOnP_chars p l h
              (by rw [hr]; exact List.mem_cons_self h tl) c hc2
            exact ⟨hm.1, List.mem_cons_of_mem a hm.2⟩
        · have hm := splitOnP_chars p l t
            (by rw [hr]; exact List.mem_cons_of_mem h ht2) c hc
          exact ⟨hm.1, List.mem_cons_of_mem a hm.2⟩

end Translator

/-- C1: for every word whose trimmed, case-insensitive key is present in the
Lexicon Store, analyze_word returns the stored entry with an empty guessed
morpheme list; for every word without such a key, it returns no entry and a
non-empty guessed morpheme list. -/
theorem analyze_word_hit_miss (lex : List (Word × Translator.WordEntry))
    (w : Word) :
    ((∃ p, p ∈ lex ∧ pyLower p.1 = pyLower (pyStrip w)) →
      ∃ p, p ∈ lex ∧ pyLower p.1 = pyLower (pyStrip w) ∧
        (Translator.analyze_word lex w).entry = some p.2 ∧
        (Translator.analyze_word lex w).guessed_morphemes = []) ∧
    ((∀ p ∈ lex, pyLower p.1 ≠ pyLower (pyStrip w)) →
      (Translator.analyze_word lex w).entry = none ∧
      (Translator.analyze_word lex w).guessed_morphemes ≠ []) := by
  constructor
  · intro h
    obtain ⟨p, hp, hl, hlook⟩ := Translator.lookup_hit h
    obtain ⟨he, hg⟩ := Translator.analyze_word_of_lookup_some hlook
    exact ⟨p, hp, hl, he, hg⟩
  · intro h
    rw [Translator.analyze_word_of_lookup_none (Translator.lookup_eq_none h)]
    exact ⟨rfl, Translator.missGuessed_ne_nil w⟩

/-- Witness: " TEKEK " hits the stored "tekek" entry case-insensitively with
no guessed morphemes, while "zzz" misses and carries no entry. -/
theorem analyze_word_hit_miss_witness :
    (Translator.analyze_word Translator.LEXICON_CORE
      (" TEKEK ".data)).guessed_morphemes = [] ∧
    (Translator.analyze_word Translator.LEXICON_CORE ("zzz".data)).entry =
      none := by
  constructor
  · obtain ⟨p, -, -, -, hg⟩ :=
      (analyze_word_hit_miss Translator.LEXICON_CORE (" TEKEK ".data)).1
        (by decide)
    exact hg
  · exact ((analyze_word_hit_miss Translator.LEXICON_CORE ("zzz".data)).2
      (by decide)).1

/-- C3 (counterexample): the empty and whitespace-only queries receive no
distinct "no result" sentinel — analyze_word returns an ordinary degraded
AnalysisResult whose notes coincide with those of an unknown word. -/
theorem empty_query_gets_degraded_result :
    Translator.analyze_word Translator.LEXICON_CORE ([] : Word) =
      { word := [], entry := none,
        guessed_morphemes := [Translator.unknownMorph []],
        animacy_guess := none,
        worldview_notes := [Translator.advisoryNote] } ∧
    (Translator.analyze_word Translator.LEXICON_CORE ("   ".data)).entry =
      none ∧
    (Translator.analyze_word Translator.LEXICON_CORE
      ("   ".data)).guessed_morphemes ≠ [] ∧
    (Translator.analyze_word Translator.LEXICON_CORE
      ("   ".data)).worldview_notes =
    (Translator.analyze_word Translator.LEXICON_CORE
      ("zzz".data)).worldview_notes := by
  decide

/-- C3 (amended): for every query that is empty or whitespace-only,
analyze_word returns a degraded AnalysisResult — no entry, the single
fallback unknown morpheme carrying the raw query, no animacy guess, and the
advisory note; no distinct sentinel exists. -/
theorem whitespace_query_degraded (w : Word)
    (h : ∀ c ∈ w, pySpace c = true) :
    Translator.analyze_word Translator.LEXICON_CORE w =
      { word := w, entry := none,
        guessed_morphemes := [Translator.unknownMorph w],
        animacy_guess := none,
        worldview_notes := [Translator.advisoryNote] } := by
  have hstrip := Translator.pyStrip_space h
  have hlook : Translator.lookup Translator.LEXICON_CORE w = none := by
    apply Translator.lookup_eq_none
    rw [hstrip]
    decide
  have hjik : ¬ ("jik".data <:+ w) :=
    Translator.not_suffix_of_all_space (by decide : 'k' ∈ "jik".data)
      (by decide) h
  have hapos : apos ∉ w := fun hm => absurd (h apos hm) (by decide)
  have hpm : Translator.patternMorphs w = [] := by
    unfold Translator.patternMorphs
    rw [if_neg hjik, if_neg hapos]
  have hpn : Translator.patternNotes w = [] := by
    unfold Translator.patternNotes
    rw [if_neg hjik, if_neg hapos]
  have hga := Translator.guess_animacy_space h
  have hcw := Translator.collect_space h
  have han : Translator.animacyNotes w = [] := by
    unfold Translator.animacyNotes
    rw [hga]
  rw [Translator.analyze_word_of_lookup_none hlook]
  unfold Translator.missGuessed Translator.missNotes
  rw [hpm, hga, hcw, hpn, han]
  simp

/-- Witness: the three-space query yields the degraded unknown result. -/
theorem whitespace_query_degraded_witness :
    Translator.analyze_word Translator.LEXICON_CORE ("   ".data) =
      { word := "   ".data, entry := none,
        guessed_morphemes := [Translator.unknownMorph ("   ".data)],
        animacy_guess := none,
        worldview_notes := [Translator.advisoryNote] } :=
  whitespace_query_degraded ("   ".data) (by decide)

/-- C4 (counterexample): "ajik" has no lexicon entry, yet its analysis
carries no advisory note saying that no lexicon entry exists — the "-jik"
pattern heuristic suppresses it. -/
theorem advisory_note_missing_for_pattern_word :
    (Translator.analyze_word Translator.LEXICON_CORE ("ajik".data)).entry =
      none ∧
    (Translator.analyze_word Translator.LEXICON_CORE
      ("ajik".data)).worldview_notes =
      ["-jik often marks animate plural (people, animals, living beings).".data,
       "Animacy guess: animate.".data] ∧
    Translator.advisoryNote ∉
      (Translator.analyze_word Translator.LEXICON_CORE
        ("ajik".data)).worldview_notes := by
  decide

/-- C4 (amended): for a word with no lexicon entry, the advisory
no-lexicon-entry note is present in the returned worldview notes exactly
when the pattern heuristics produced no guessed morphemes. -/
theorem advisory_note_iff_no_pattern (lex : List (Word × Translator.WordEntry))
    (w : Word) (h : Translator.lookup lex w = none) :
    (Translator.advisoryNote ∈ (Translator.analyze_word lex w).worldview_notes
      ↔ Translator.patternMorphs w = []) := by
  rw [Translator.analyze_word_of_lookup_none h]
  show Translator.advisoryNote ∈ Translator.missNotes w ↔ _
  unfold Translator.missNotes
  constructor
  · intro hm
    by_contra hne
    rw [if_neg hne] at hm
    simp only [List.append_nil, List.mem_append] at hm
    rcases hm with (hm | hm) | hm
    · exact absurd (Translator.collect_mem hm) (by decide)
    · rcases Translator.patternNotes_mem hm with he | he <;>
        exact absurd he (by decide)
    · rcases Translator.animacyNotes_values w with hv | hv | hv <;>
        rw [hv] at hm
      · cases hm
      · exact absurd (List.mem_singleton.mp hm) (by decide)
      · exact absurd (List.mem_singleton.mp hm) (by decide)
  · intro hp
    rw [if_pos hp]
    simp

/-- Witness: "zzz" has no entry and no pattern guess, so the advisory note
is present in its worldview notes. -/
theorem advisory_note_iff_no_pattern_witness :
    Translator.advisoryNote ∈
      (Translator.analyze_word Translator.LEXICON_CORE
        ("zzz".data)).worldview_notes :=
  (advisory_note_iff_no_pattern Translator.LEXICON_CORE ("zzz".data)
    (by decide)).mpr (by decide)

/-- C8: generate_modern_term never returns an empty list; its last element
is always the generic fallback candidate; every candidate's caution field
is non-empty; and the empty request yields exactly the generic fallback. -/
theorem generate_always_fallback (req : Translator.GenerationRequest) :
    Translator.generate_modern_term req ≠ [] ∧
    (Translator.generate_modern_term req).getLast? =
      some Translator.genericCandidate ∧
    (∀ c ∈ Translator.generate_modern_term req, c.caution ≠ []) ∧
    Translator.generate_modern_term
      { concept := [], purpose := [], domain_tags := [] } =
      [Translator.genericCandidate] := by
  have hcases : Translator.generate_modern_term req =
      [Translator.fridgeCandidate, Translator.genericCandidate] ∨
      Translator.generate_modern_term req = [Translator.genericCandidate] := by
    unfold Translator.generate_modern_term
    by_cases hp : ("refrigerator".data <:+: pyLower req.concept ∨
        ("cold".data <:+: pyLower req.purpose ∧
         "food".data <:+: pyLower req.purpose))
    · rw [if_pos hp]
      exact Or.inl rfl
    · rw [if_neg hp]
      exact Or.inr rfl
  rcases hcases with hc | hc <;> rw [hc] <;>
    exact ⟨by decide, by decide, by decide, by decide⟩

/-- Witness: the empty generation request still yields a candidate list. -/
theorem generate_always_fallback_witness :
    Translator.generate_modern_term
      { concept := [], purpose := [], domain_tags := [] } ≠ [] :=
  (generate_always_fallback
    { concept := [], purpose := [], domain_tags := [] }).1

/-- C9: analyze_sentence tokenizes on whitespace with commas treated as
whitespace and empty tokens dropped, analyzes each token independently via
analyze_word in input order; "Kwe', teluisi Katew." yields exactly 3 tokens
and 3 per-token analyses, and no token contains whitespace or a comma. -/
theorem analyze_sentence_spec :
    Translator.tokenize ("Kwe', teluisi Katew.".data) =
      ["Kwe'".data, "teluisi".data, "Katew.".data] ∧
    Translator.analyze_sentence Translator.LEXICON_CORE
        ("Kwe', teluisi Katew.".data) =
      { sentence := "Kwe', teluisi Katew.".data,
        tokens := ["Kwe'".data, "teluisi".data, "Katew.".data],
        analyses :=
          [Translator.analyze_word Translator.LEXICON_CORE ("Kwe'".data),
           Translator.analyze_word Translator.LEXICON_CORE ("teluisi".data),
           Translator.analyze_word Translator.LEXICON_CORE ("Katew.".data)] } ∧
    (∀ s : Word,
      (Translator.analyze_sentence Translator.LEXICON_CORE s).tokens =
        Translator.tokenize s ∧
      (Translator.analyze_sentence Translator.LEXICON_CORE s).analyses =
        (Translator.tokenize s).map
          (Translator.analyze_word Translator.LEXICON_CORE)) ∧
    (∀ s t : Word, t ∈ Translator.tokenize s →
      t ≠ [] ∧ ∀ c ∈ t, pySpace c = false ∧ c ≠ Char.ofNat 44) := by
  refine ⟨by decide, ?_, fun s => ⟨rfl, rfl⟩, ?_⟩
  · have ht : Translator.tokenize ("Kwe', teluisi Katew.".data) =
        ["Kwe'".data, "teluisi".data, "Katew.".data] := by decide
    unfold Translator.analyze_sentence
    rw [ht]
    rfl
  · intro s t ht
    have htm := List.mem_filter.mp ht
    have htne : t ≠ [] := by
      have := htm.2
      simpa using this
    refine ⟨htne, ?_⟩
    intro c hc
    have hch := Translator.splitOnP_chars pySpace _ t htm.1 c hc
    refine ⟨hch.1, ?_⟩
    have hcm := hch.2
    rw [List.mem_map] at hcm
    obtain ⟨a, ha, hfa⟩ := hcm
    intro hceq
    by_cases hq : (a == Char.ofNat 44) = true
    · rw [if_pos hq] at hfa
      exact absurd (hfa.trans hceq) (by decide)
    · rw [if_neg hq] at hfa
      subst hfa
      exact hq (beq_iff_eq.mpr hceq)

/-- Witness: the tokens field of an analyzed sentence is the tokenizer's
output. -/
theorem analyze_sentence_spec_witness :
    (Translator.analyze_sentence Translator.LEXICON_CORE ("a b".data)).tokens =
      Translator.tokenize ("a b".data) :=
  (analyze_sentence_spec.2.2.1 ("a b".data)).1

